import Mathlib

/-!
Verification of the `preq` HTTP response extractor and request pipeline.

The byte stream consumed by the extractor is modelled as a `List Char`
(each element one byte; all inputs of interest are ASCII, and the Go code
reads raw bytes).  Readers become explicit stream passing: every function
returns the bytes it copied to the output, the unconsumed remainder of the
stream, and an optional error.  Loops in the Go source are translated with
a fuel parameter so that every definition is structurally recursive and
hence computable by the kernel; each call site passes fuel that is provably
sufficient (one unit per loop iteration, and every iteration consumes at
least one byte of the stream), so the `outOfFuel` branch is unreachable
there.
-/

namespace Preq

set_option maxRecDepth 100000

/-- Error outcomes of the extractor.  Constructors mirror the distinct
`error` values produced in `extractor.go`; `panicNegLen` marks the Go
runtime panic of `make([]byte, n)` with negative `n` (in Go no value is
returned at all in that case), and `outOfFuel` is an artifact of the fuel
embedding that is unreachable at the fuel passed by the wrappers. -/
inductive ExtractErr
  | statusLineRead
  | headerLineRead
  | lineRead
  | multipleContentLength
  | invalidContentLength
  | invalidChunk
  | chunkBodyRead
  | readFull
  | panicNegLen
  | outOfFuel
  deriving DecidableEq, Repr

/-- Result of `readHead`: parsed Content-Length, chunked flag, no-body
flag, bytes copied to the output, unconsumed stream, optional error. -/
structure HeadResult where
  contentLength : Option Int
  chunked : Bool
  noBody : Bool
  out : List Char
  rest : List Char
  err : Option ExtractErr
  deriving DecidableEq, Repr

/-- Result of the header-scanning loop inside `readHead`. -/
structure LoopResult where
  cl : Option Int
  chunked : Bool
  out : List Char
  rest : List Char
  err : Option ExtractErr
  deriving DecidableEq, Repr

/-- Result of a body-copying function: bytes copied, unconsumed stream,
optional error. -/
structure BodyResult where
  out : List Char
  rest : List Char
  err : Option ExtractErr
  deriving DecidableEq, Repr

/-- ASCII lower-casing of one character, as `strings.ToLower` acts on the
ASCII range (all header names involved are ASCII). -/
def toLowerChar (c : Char) : Char :=
  if 'A' ≤ c ∧ c ≤ 'Z' then Char.ofNat (c.toNat + 32) else c

/-- `strings.ToLower` on a byte list. -/
def toLowerList (s : List Char) : List Char := s.map toLowerChar

/-- The ASCII white-space characters recognised by Go's `unicode.IsSpace`
(space, tab, newline, vertical tab, form feed, carriage return). -/
def isGoSpace (c : Char) : Bool :=
  c = ' ' || c = '\t' || c = '\n' || c = Char.ofNat 11 || c = Char.ofNat 12 || c = '\r'

/-- `strings.TrimSpace`. -/
def trimSpace (s : List Char) : List Char :=
  ((s.dropWhile isGoSpace).reverse.dropWhile isGoSpace).reverse

/-- `strings.TrimRight(s, "\r\n")`: drop trailing CR and LF bytes. -/
def trimRightCRLF (s : List Char) : List Char :=
  (s.reverse.dropWhile (fun c => c = '\r' || c = '\n')).reverse

/-- `strings.Fields`: split on runs of white space, dropping empties.
Helper carrying the reversed current field. -/
def fieldsGoAux : List Char → List Char → List (List Char)
  | [], acc => if acc.isEmpty then [] else [acc.reverse]
  | c :: rest, acc =>
    if isGoSpace c then
      if acc.isEmpty then fieldsGoAux rest []
      else acc.reverse :: fieldsGoAux rest []
    else fieldsGoAux rest (c :: acc)

/-- `strings.Fields`. -/
def fieldsGo (s : List Char) : List (List Char) := fieldsGoAux s []

/-- Decimal digit value. -/
def digit10? (c : Char) : Option Nat :=
  if '0' ≤ c ∧ c ≤ '9' then some (c.toNat - 48) else none

/-- Hexadecimal digit value (`strconv` accepts both letter cases). -/
def digit16? (c : Char) : Option Nat :=
  if '0' ≤ c ∧ c ≤ '9' then some (c.toNat - 48)
  else if 'a' ≤ c ∧ c ≤ 'f' then some (c.toNat - 87)
  else if 'A' ≤ c ∧ c ≤ 'F' then some (c.toNat - 55)
  else none

/-- Accumulate digit characters in the given base; `none` on a non-digit. -/
def parseNatDigitsAux (dig : Char → Option Nat) (base : Nat) : List Char → Nat → Option Nat
  | [], acc => some acc
  | c :: rest, acc =>
    match dig c with
    | some d => parseNatDigitsAux dig base rest (acc * base + d)
    | none => none

/-- Parse a non-empty all-digit string to its value. -/
def parseNatDigits (dig : Char → Option Nat) (base : Nat) : List Char → Option Nat
  | [] => none
  | s => parseNatDigitsAux dig base s 0

/-- `strconv.ParseInt(s, base, 64)`: optional single leading sign, then a
non-empty run of digits of the base, within the signed 64-bit range
(magnitude up to `2^63 - 1`, or `2^63` for a negative value).  With an
explicit base, `strconv` accepts no prefix and no underscores. -/
def parseIntGo (dig : Char → Option Nat) (base : Nat) (s : List Char) : Option Int :=
  match s with
  | [] => none
  | '+' :: rest =>
    match parseNatDigits dig base rest with
    | some v => if v ≤ 2 ^ 63 - 1 then some (v : Int) else none
    | none => none
  | '-' :: rest =>
    match parseNatDigits dig base rest with
    | some v => if v ≤ 2 ^ 63 then some (-(v : Int)) else none
    | none => none
  | _ =>
    match parseNatDigits dig base s with
    | some v => if v ≤ 2 ^ 63 - 1 then some (v : Int) else none
    | none => none

/-- `strconv.ParseInt(s, 10, 64)` (also `strconv.Atoi` on a 64-bit platform). -/
def parseInt10 (s : List Char) : Option Int := parseIntGo digit10? 10 s

/-- `strconv.ParseInt(s, 16, 64)`. -/
def parseInt16 (s : List Char) : Option Int := parseIntGo digit16? 16 s

/-- `strings.SplitN(line, ":", 2)[1]`: everything after the first colon
(callers establish that a colon is present). -/
def afterFirstColon : List Char → List Char
  | [] => []
  | c :: rest => if c = ':' then rest else afterFirstColon rest

/-- `strings.Split(chunk, ";")[0]`: everything before the first semicolon
(the whole string when no semicolon occurs). -/
def beforeFirstSemicolon : List Char → List Char
  | [] => []
  | c :: rest => if c = ';' then [] else c :: beforeFirstSemicolon rest

/-- `strings.Split(s, ",")`: split at every comma; never empty. -/
def splitComma : List Char → List (List Char)
  | [] => [[]]
  | c :: rest =>
    if c = ',' then [] :: splitComma rest
    else
      match splitComma rest with
      | g :: gs => (c :: g) :: gs
      | [] => [[c]]

/-- `bufio.Reader.ReadBytes('\n')`: the raw line through the first newline
and the remainder, or `none` when the stream ends with no newline (the
read error path; Go then returns the error before writing anything). -/
def splitLine? : List Char → Option (List Char × List Char)
  | [] => none
  | c :: rest =>
    if c = '\n' then some ([c], rest)
    else
      match splitLine? rest with
      | some (l, r) => some (c :: l, r)
      | none => none

/-- `readAndCopyLine`: read one raw line, copy it verbatim to the output,
and return the line with trailing CR/LF trimmed.  Yields the copied raw
bytes, the trimmed line, and the remaining stream; `none` on read error. -/
def readAndCopyLine (s : List Char) : Option (List Char × List Char × List Char) :=
  match splitLine? s with
  | none => none
  | some (raw, rest) => some (raw, trimRightCRLF raw, rest)

/-- `hasNoBodyStatusCode`: the second white-space-separated field of the
status line parses as an integer in 1xx, or equals 204 or 304. -/
def hasNoBodyStatusCode (statusLine : List Char) : Bool :=
  match fieldsGo statusLine with
  | _ :: f1 :: _ =>
    match parseInt10 f1 with
    | some code => decide ((100 ≤ code ∧ code < 200) ∨ code = 204 ∨ code = 304)
    | none => false
  | _ => false

/-- `maxBufSize` from the source. -/
def maxBufSize : Int := 1024

/-- `copyN`: copy exactly `n` bytes from the stream to the output.  While
`n > maxBufSize` it reads up to `maxBufSize` bytes at a time (a `bufio`
read on our deterministic stream returns `min maxBufSize remaining` bytes,
or an error on an empty stream); the final at-most-`maxBufSize` bytes go
through `io.ReadFull`, which copies nothing on a short stream.  A negative
`n` reaches `make([]byte, n)` and panics in Go (`panicNegLen`). -/
def copyN : Nat → List Char → Int → BodyResult
  | 0, s, n =>
    if n = 0 then ⟨[], s, none⟩
    else if maxBufSize < n then
      match s with
      | [] => ⟨[], [], some .readFull⟩
      | _ => ⟨[], s, some .outOfFuel⟩
    else if n < 0 then ⟨[], s, some .panicNegLen⟩
    else if n.toNat ≤ s.length then ⟨s.take n.toNat, s.drop n.toNat, none⟩
    else ⟨[], [], some .readFull⟩
  | fuel + 1, s, n =>
    if n = 0 then ⟨[], s, none⟩
    else if maxBufSize < n then
      match s with
      | [] => ⟨[], [], some .readFull⟩
      | _ =>
        let rd := min 1024 s.length
        let r := copyN fuel (s.drop rd) (n - (rd : Int))
        ⟨s.take rd ++ r.out, r.rest, r.err⟩
    else if n < 0 then ⟨[], s, some .panicNegLen⟩
    else if n.toNat ≤ s.length then ⟨s.take n.toNat, s.drop n.toNat, none⟩
    else ⟨[], [], some .readFull⟩

/-- The trailer loop at the end of `readChunkedBody`: copy lines verbatim
until a line that trims to empty. -/
def readTrailers : Nat → List Char → BodyResult
  | 0, s => ⟨[], s, some .outOfFuel⟩
  | fuel + 1, s =>
    match readAndCopyLine s with
    | none => ⟨[], s, some .lineRead⟩
    | some (raw, line, rest) =>
      if line = [] then ⟨raw, rest, none⟩
      else
        let r := readTrailers fuel rest
        ⟨raw ++ r.out, r.rest, r.err⟩

/-- Wrapping of a `copyN` failure inside `readChunkedBody` ("could not
read full chunk body"); a panic propagates unwrapped, and the fuel
artifact stays recognisable. -/
def wrapChunkBodyErr : ExtractErr → ExtractErr
  | .panicNegLen => .panicNegLen
  | .outOfFuel => .outOfFuel
  | _ => .chunkBodyRead

/-- `readChunkedBody`: repeatedly read a chunk-size line (copied
verbatim), parse the token before any `;` as a signed 64-bit hexadecimal
integer, stop at size zero (then copy trailer lines through the blank
line), otherwise copy size+2 bytes verbatim and continue. -/
def readChunkedBody : Nat → List Char → BodyResult
  | 0, s => ⟨[], s, some .outOfFuel⟩
  | fuel + 1, s =>
    match readAndCopyLine s with
    | none => ⟨[], s, some .lineRead⟩
    | some (raw, line, rest) =>
      match parseInt16 (beforeFirstSemicolon line) with
      | none => ⟨raw, rest, some .invalidChunk⟩
      | some size =>
        if size = 0 then
          let t := readTrailers (rest.length + 1) rest
          ⟨raw ++ t.out, t.rest, t.err⟩
        else
          let b := copyN (rest.length + 1) rest (size + 2)
          match b.err with
          | some e => ⟨raw ++ b.out, b.rest, some (wrapChunkBodyErr e)⟩
          | none =>
            let r := readChunkedBody fuel b.rest
            ⟨raw ++ b.out ++ r.out, r.rest, r.err⟩

/-- Prefix the copied raw line onto a header-loop result. -/
def prependLoop (raw : List Char) (r : LoopResult) : LoopResult :=
  ⟨r.cl, r.chunked, raw ++ r.out, r.rest, r.err⟩

/-- The header-scanning loop of `readHead`: copy lines verbatim until a
blank line; on each line, case-insensitively detect a `Content-Length:`
prefix (error on a duplicate header or an unparsable value) and a
`Transfer-Encoding:` prefix (the chunked flag is recomputed from the last
comma-separated, trimmed token of the value, compared with "chunked"
case-sensitively). -/
def readHeadLoop : Nat → List Char → Option Int → Bool → LoopResult
  | 0, s, _, _ => ⟨none, false, [], s, some .outOfFuel⟩
  | fuel + 1, s, cl, ch =>
    match readAndCopyLine s with
    | none => ⟨none, false, [], s, some .headerLineRead⟩
    | some (raw, line, rest) =>
      if line = [] then ⟨cl, ch, raw, rest, none⟩
      else
        let lower := toLowerList line
        let chTE : Bool :=
          if "transfer-encoding:".toList.isPrefixOf lower then
            trimSpace ((splitComma (afterFirstColon line)).getLastD []) = "chunked".toList
          else ch
        if "content-length:".toList.isPrefixOf lower then
          match cl with
          | some _ => ⟨none, false, raw, rest, some .multipleContentLength⟩
          | none =>
            match parseInt10 (trimSpace (afterFirstColon line)) with
            | none => ⟨none, false, raw, rest, some .invalidContentLength⟩
            | some i => prependLoop raw (readHeadLoop fuel rest (some i) chTE)
        else prependLoop raw (readHeadLoop fuel rest cl chTE)

/-- `readHead`: read and copy the status line, classify the no-body flag
from it, then run the header loop.  On any error the Content-Length,
chunked and no-body results revert to their zero values, as in Go. -/
def readHead (s : List Char) : HeadResult :=
  match readAndCopyLine s with
  | none => ⟨none, false, false, [], s, some .statusLineRead⟩
  | some (raw, statusLine, rest) =>
    let noBody := hasNoBodyStatusCode statusLine
    let r := readHeadLoop (rest.length + 1) rest none false
    match r.err with
    | none => ⟨r.cl, r.chunked, noBody, raw ++ r.out, r.rest, none⟩
    | some e => ⟨none, false, false, raw ++ r.out, r.rest, some e⟩

/-- `ExtractResponse`: head section first; stop there on error, HEAD
request, or no-body status; otherwise chunked framing takes priority,
then Content-Length, then copy-to-end (connection close framing, where
reaching the end of the stream is not an error). -/
def ExtractResponse (s : List Char) (headRequest : Bool) : List Char × Option ExtractErr :=
  let h := readHead s
  if h.err.isSome || headRequest || h.noBody then (h.out, h.err)
  else if h.chunked then
    let b := readChunkedBody (h.rest.length + 1) h.rest
    (h.out ++ b.out, b.err)
  else
    match h.contentLength with
    | some n =>
      let b := copyN (h.rest.length + 1) h.rest n
      (h.out ++ b.out, b.err)
    | none => (h.out ++ h.rest, none)

/-! ### Stream-splitting lemmas -/

theorem splitLine?_eq_append : ∀ (s raw rest : List Char),
    splitLine? s = some (raw, rest) → s = raw ++ rest := by
  intro s
  induction s with
  | nil => intro raw rest h; simp [splitLine?] at h
  | cons c tl ih =>
    intro raw rest h
    by_cases hc : c = '\n'
    · subst hc
      simp [splitLine?] at h
      simp [← h.1, ← h.2]
    · simp only [splitLine?, if_neg hc] at h
      match htl : splitLine? tl with
      | none => rw [htl] at h; simp at h
      | some (l, r) =>
        rw [htl] at h
        simp only [Option.some.injEq, Prod.mk.injEq] at h
        obtain ⟨h1, h2⟩ := h
        subst h2
        rw [← h1]
        simpa using ih l r htl

theorem splitLine?_append (content rest : List Char) (h : '\n' ∉ content) :
    splitLine? (content ++ '\n' :: rest) = some (content ++ ['\n'], rest) := by
  induction content with
  | nil => simp [splitLine?]
  | cons c tl ih =>
    have hc : c ≠ '\n' := fun hh => h (hh ▸ List.mem_cons_self c tl)
    have htl : '\n' ∉ tl := fun hh => h (List.mem_cons_of_mem c hh)
    simp only [List.cons_append, splitLine?, if_neg hc, List.append_eq, ih htl]

theorem readAndCopyLine_eq_append (s raw line rest : List Char)
    (h : readAndCopyLine s = some (raw, line, rest)) :
    s = raw ++ rest ∧ line = trimRightCRLF raw := by
  unfold readAndCopyLine at h
  match hs : splitLine? s with
  | none => rw [hs] at h; simp at h
  | some (l, r) =>
    rw [hs] at h
    simp only [Option.some.injEq, Prod.mk.injEq] at h
    obtain ⟨h1, h2, h3⟩ := h
    constructor
    · rw [← h1, ← h3]
      exact splitLine?_eq_append s l r hs
    · rw [← h2, ← h1]

theorem readAndCopyLine_append (content rest : List Char) (h : '\n' ∉ content) :
    readAndCopyLine (content ++ '\n' :: rest)
      = some (content ++ ['\n'], trimRightCRLF (content ++ ['\n']), rest) := by
  unfold readAndCopyLine
  rw [splitLine?_append content rest h]

/-! ### `copyN` behaves as take/drop when enough bytes are present -/

theorem copyN_exact : ∀ (fuel : Nat) (s : List Char) (n : Int), 0 ≤ n →
    n.toNat ≤ s.length → n.toNat ≤ 1024 * fuel + 1024 →
    copyN fuel s n = ⟨s.take n.toNat, s.drop n.toNat, none⟩ := by
  intro fuel
  induction fuel with
  | zero =>
    intro s n h0 hlen hfuel
    by_cases hn : n = 0
    · subst hn; simp [copyN]
    · have hle : ¬ maxBufSize < n := by
        simp only [maxBufSize]
        omega
      have hneg : ¬ n < 0 := by omega
      simp [copyN, if_neg hn, if_neg hle, if_neg hneg, hlen]
  | succ f ih =>
    intro s n h0 hlen hfuel
    by_cases hn : n = 0
    · subst hn; simp [copyN]
    · by_cases hbig : maxBufSize < n
      · have hbig' : (1024 : Int) < n := by simpa [maxBufSize] using hbig
        match s with
        | [] =>
          exfalso
          simp only [List.length_nil] at hlen
          omega
        | a :: tl =>
          simp only [List.length_cons] at hlen
          simp only [copyN, if_neg hn, if_pos hbig]
          have hrd : min 1024 (a :: tl).length = 1024 := by
            simp only [List.length_cons]
            omega
          rw [hrd]
          have hdl : (List.drop 1024 (a :: tl)).length = tl.length + 1 - 1024 := by
            simp [List.length_drop]
          have hrec := ih ((a :: tl).drop 1024) (n - 1024) (by omega)
            (by rw [hdl]; omega) (by omega)
          have hcast : ((1024 : Nat) : Int) = (1024 : Int) := by norm_num
          rw [hcast, hrec]
          have htn : n.toNat = 1024 + (n - 1024).toNat := by omega
          simp only [BodyResult.mk.injEq, and_true]
          constructor
          · rw [htn, List.take_add]
          · rw [List.drop_drop]
            congr 1
            omega
      · have hneg : ¬ n < 0 := by omega
        simp [copyN, if_neg hn, if_neg hbig, if_neg hneg, hlen]

/-! ### Everything `readHead` copies, plus its remainder, is the input -/

theorem readHeadLoop_split : ∀ (fuel : Nat) (s : List Char) (cl : Option Int) (ch : Bool),
    (readHeadLoop fuel s cl ch).out ++ (readHeadLoop fuel s cl ch).rest = s := by
  intro fuel
  induction fuel with
  | zero => intro s cl ch; simp [readHeadLoop]
  | succ f ih =>
    intro s cl ch
    match hline : readAndCopyLine s with
    | none => simp [readHeadLoop, hline]
    | some (raw, line, rest) =>
      obtain ⟨hs, -⟩ := readAndCopyLine_eq_append s raw line rest hline
      subst hs
      simp only [readHeadLoop, hline]
      by_cases hblank : line = []
      · simp [hblank]
      · simp only [if_neg hblank]
        by_cases hcl : "content-length:".toList.isPrefixOf (toLowerList line) = true
        · simp only [hcl, if_true]
          match cl with
          | some v => simp
          | none =>
            match parseInt10 (trimSpace (afterFirstColon line)) with
            | none => simp
            | some i => simp [prependLoop, List.append_assoc, ih]
        · simp only [hcl, if_false, Bool.false_eq_true]
          simp [prependLoop, List.append_assoc, ih]

theorem readHead_split (s : List Char) :
    (readHead s).out ++ (readHead s).rest = s := by
  unfold readHead
  match hline : readAndCopyLine s with
  | none => simp
  | some (raw, line, rest) =>
    obtain ⟨hs, -⟩ := readAndCopyLine_eq_append s raw line rest hline
    subst hs
    have hsplit := readHeadLoop_split (rest.length + 1) rest none false
    match hr : (readHeadLoop (rest.length + 1) rest none false).err with
    | none => simp [hr, List.append_assoc, hsplit]
    | some e => simp [hr, List.append_assoc, hsplit]

/-! ### Claims about the extractor -/

/-- Claim C1: for a stream whose head section parses with a single
`Content-Length: L` header, no chunked transfer encoding and a
body-bearing status code, `ExtractResponse` with `headRequest = false`
returns exactly the status line, the header lines and the blank line
(`out`) followed by exactly `L` further body bytes, and excludes every
byte of the stream after those `L` bytes. -/
theorem extract_contentLength_exact (s : List Char) (L : Int) (out rest : List Char)
    (hhead : readHead s = ⟨some L, false, false, out, rest, none⟩)
    (hL : 0 ≤ L) (hlen : L.toNat ≤ rest.length) :
    ExtractResponse s false = (out ++ rest.take L.toNat, none) ∧ s = out ++ rest := by
  constructor
  · simp only [ExtractResponse, hhead]
    rw [copyN_exact (rest.length + 1) rest L hL hlen (by omega)]
    simp
  · have h := readHead_split s
    rw [hhead] at h
    exact h.symm

/-- Claim C1 witness: the first test vector of the repository, with the
trailing `" foo"` bytes excluded from the output. -/
theorem extract_contentLength_exact_witness :
    ExtractResponse ("HTTP/1.1 404 Not Found\r\nContent-Type: text/plain; charset=utf-8\r\nX-Content-Type-Options: nosniff\r\nDate: Sun, 17 Dec 2023 12:05:16 GMT\r\nContent-Length: 19\r\n\r\n".toList ++ "404 page not found\n foo".toList) false
      = ("HTTP/1.1 404 Not Found\r\nContent-Type: text/plain; charset=utf-8\r\nX-Content-Type-Options: nosniff\r\nDate: Sun, 17 Dec 2023 12:05:16 GMT\r\nContent-Length: 19\r\n\r\n".toList ++ "404 page not found\n foo".toList.take 19, none) := by
  exact (extract_contentLength_exact _ 19 _ _ (by rfl) (by decide) (by decide)).1

/-- Claim C3: when the request was a HEAD request or the status line
carries a no-body status code (the `noBody` flag computed by `readHead`
from `hasNoBodyStatusCode`, i.e. 1xx, 204 or 304), the output of
`ExtractResponse` is exactly the head section ending at the blank line,
and the remainder of the stream is neither read nor emitted — whatever
Content-Length or Transfer-Encoding headers were present. -/
theorem extract_head_or_noBody_stops (s : List Char) (hr : Bool) (cl : Option Int)
    (ch nb : Bool) (out rest : List Char)
    (hhead : readHead s = ⟨cl, ch, nb, out, rest, none⟩)
    (hcond : hr = true ∨ nb = true) :
    ExtractResponse s hr = (out, none) ∧ s = out ++ rest := by
  constructor
  · simp only [ExtractResponse, hhead]
    rcases hcond with h | h <;> subst h <;> simp
  · have h := readHead_split s
    rw [hhead] at h
    exact h.symm

/-- Claim C3 witness: a HEAD request against a response that advertises
`Content-Length: 10`; the output stops at the blank line. -/
theorem extract_head_or_noBody_stops_witness :
    ExtractResponse "HTTP/1.1 200 OK\r\nContent-Length: 10\r\n\r\nAll good.\n".toList true
      = ("HTTP/1.1 200 OK\r\nContent-Length: 10\r\n\r\n".toList, none) := by
  exact (extract_head_or_noBody_stops _ true (some 10) false false _ "All good.\n".toList
    (by rfl) (Or.inl rfl)).1

/-! ### Well-formed chunked bodies -/

/-- One non-terminal chunk of a chunked body as it appears on the wire:
the chunk-size line without its final newline, and the following block of
size + 2 bytes (payload plus the two line-terminator bytes that `copyN`
copies blindly). -/
structure RawChunk where
  sizeContent : List Char
  body : List Char
  deriving DecidableEq, Repr

/-- The wire bytes of one chunk. -/
def RawChunk.render (c : RawChunk) : List Char := c.sizeContent ++ '\n' :: c.body

/-- The wire bytes of a list of chunks. -/
def renderChunks : List RawChunk → List Char
  | [] => []
  | c :: cs => c.render ++ renderChunks cs

/-- A chunk is well formed when its size line is a single line whose
token before any `;` parses as a positive 64-bit hexadecimal size `k`,
and its block is exactly `k + 2` bytes. -/
def RawChunk.valid (c : RawChunk) : Bool :=
  decide ('\n' ∉ c.sizeContent) &&
  match parseInt16 (beforeFirstSemicolon (trimRightCRLF (c.sizeContent ++ ['\n']))) with
  | some k => decide (1 ≤ k) && c.body.length == k.toNat + 2
  | none => false

theorem RawChunk.valid_spec (c : RawChunk) (h : c.valid = true) :
    '\n' ∉ c.sizeContent ∧ ∃ k : Int,
      parseInt16 (beforeFirstSemicolon (trimRightCRLF (c.sizeContent ++ ['\n']))) = some k ∧
      1 ≤ k ∧ c.body.length = k.toNat + 2 := by
  unfold RawChunk.valid at h
  match hp : parseInt16 (beforeFirstSemicolon (trimRightCRLF (c.sizeContent ++ ['\n']))) with
  | none => rw [hp] at h; simp at h
  | some k =>
    rw [hp] at h
    simp only [Bool.and_eq_true, decide_eq_true_eq, beq_iff_eq] at h
    exact ⟨h.1, k, rfl, h.2.1, h.2.2⟩

/-- The wire bytes of the trailer lines (each given without its final
newline). -/
def joinTrailers : List (List Char) → List Char
  | [] => []
  | t :: ts => t ++ '\n' :: joinTrailers ts

theorem renderChunks_length_ge (cs : List RawChunk) :
    cs.length ≤ (renderChunks cs).length := by
  induction cs with
  | nil => simp [renderChunks]
  | cons c cs ih =>
    simp only [renderChunks, RawChunk.render, List.length_append, List.length_cons]
    omega

theorem joinTrailers_length_ge (ts : List (List Char)) :
    ts.length ≤ (joinTrailers ts).length := by
  induction ts with
  | nil => simp [joinTrailers]
  | cons t ts ih =>
    simp only [joinTrailers, List.length_append, List.length_cons]
    omega

/-- Processing a block of well-formed chunks copies its bytes verbatim
and continues on the remaining stream, one fuel unit per chunk. -/
theorem readChunkedBody_chunks : ∀ (cs : List RawChunk), (∀ c ∈ cs, c.valid = true) →
    ∀ (fuel : Nat) (tail : List Char),
      readChunkedBody (cs.length + fuel) (renderChunks cs ++ tail)
        = ⟨renderChunks cs ++ (readChunkedBody fuel tail).out,
           (readChunkedBody fuel tail).rest, (readChunkedBody fuel tail).err⟩ := by
  intro cs
  induction cs with
  | nil => intro _ fuel tail; simp [renderChunks]
  | cons c cs ih =>
    intro hval fuel tail
    obtain ⟨hnl, k, hk, hk1, hkb⟩ := RawChunk.valid_spec c (hval c (List.mem_cons_self c cs))
    have hfe : (c :: cs).length + fuel = (cs.length + fuel) + 1 := by
      simp only [List.length_cons]
      omega
    rw [hfe]
    have hin : renderChunks (c :: cs) ++ tail
        = c.sizeContent ++ '\n' :: (c.body ++ (renderChunks cs ++ tail)) := by
      simp [renderChunks, RawChunk.render, List.append_assoc]
    rw [hin]
    simp only [readChunkedBody, readAndCopyLine_append _ _ hnl, hk]
    rw [if_neg (show ¬ k = 0 by omega)]
    have hblen : (k + 2).toNat = c.body.length := by omega
    have hcopy := copyN_exact ((c.body ++ (renderChunks cs ++ tail)).length + 1)
      (c.body ++ (renderChunks cs ++ tail)) (k + 2) (by omega)
      (by simp only [List.length_append]; omega)
      (by simp only [List.length_append]; omega)
    rw [hblen] at hcopy
    rw [hcopy, List.take_left, List.drop_left]
    simp only []
    rw [ih (fun x hx => hval x (List.mem_cons_of_mem c hx)) fuel tail]
    simp [renderChunks, RawChunk.render, List.append_assoc]

/-- The trailer loop copies well-formed trailer lines verbatim through
the blank line, leaving the rest of the stream unread. -/
theorem readTrailers_render : ∀ (ts : List (List Char)),
    (∀ t ∈ ts, '\n' ∉ t ∧ trimRightCRLF (t ++ ['\n']) ≠ []) →
    ∀ (fuel : Nat) (b extra : List Char), '\n' ∉ b → trimRightCRLF (b ++ ['\n']) = [] →
      ts.length < fuel →
      readTrailers fuel (joinTrailers ts ++ (b ++ '\n' :: extra))
        = ⟨joinTrailers ts ++ (b ++ ['\n']), extra, none⟩ := by
  intro ts
  induction ts with
  | nil =>
    intro _ fuel b extra hb hbb hf
    cases fuel with
    | zero => omega
    | succ f =>
      simp [joinTrailers, readTrailers, readAndCopyLine_append _ _ hb, hbb]
  | cons t ts ih =>
    intro hts fuel b extra hb hbb hf
    obtain ⟨hnt, htne⟩ := hts t (List.mem_cons_self t ts)
    cases fuel with
    | zero => omega
    | succ f =>
      have hin : joinTrailers (t :: ts) ++ (b ++ '\n' :: extra)
          = t ++ '\n' :: (joinTrailers ts ++ (b ++ '\n' :: extra)) := by
        simp [joinTrailers, List.append_assoc]
      rw [hin]
      simp only [readTrailers, readAndCopyLine_append _ _ hnt]
      rw [if_neg htne]
      rw [ih (fun u hu => hts u (List.mem_cons_of_mem t hu)) f b extra hb hbb
        (by simp only [List.length_cons] at hf; omega)]
      simp [joinTrailers, List.append_assoc]

/-- A fully well-formed chunked body (chunks, zero-size line, trailers,
blank line) is copied verbatim by `readChunkedBody`, which then stops,
leaving any further stream bytes unread. -/
theorem readChunkedBody_wellFormed (cs : List RawChunk) (z : List Char)
    (ts : List (List Char)) (b extra : List Char) (fuel : Nat)
    (hcs : ∀ c ∈ cs, c.valid = true)
    (hz : '\n' ∉ z)
    (hz0 : parseInt16 (beforeFirstSemicolon (trimRightCRLF (z ++ ['\n']))) = some 0)
    (hts : ∀ t ∈ ts, '\n' ∉ t ∧ trimRightCRLF (t ++ ['\n']) ≠ [])
    (hb : '\n' ∉ b) (hbb : trimRightCRLF (b ++ ['\n']) = [])
    (hf : cs.length < fuel) :
    readChunkedBody fuel
        (renderChunks cs ++ (z ++ '\n' :: (joinTrailers ts ++ (b ++ '\n' :: extra))))
      = ⟨renderChunks cs ++ (z ++ '\n' :: (joinTrailers ts ++ (b ++ ['\n']))), extra, none⟩ := by
  have hfe : fuel = cs.length + (fuel - cs.length) := by omega
  rw [hfe, readChunkedBody_chunks cs hcs (fuel - cs.length) _]
  have hf1 : ∃ f, fuel - cs.length = f + 1 := ⟨fuel - cs.length - 1, by omega⟩
  obtain ⟨f, hq⟩ := hf1
  rw [hq]
  simp only [readChunkedBody, readAndCopyLine_append _ _ hz, hz0, if_pos rfl]
  rw [readTrailers_render ts hts _ b extra hb hbb
    (by
      have h1 := joinTrailers_length_ge ts
      simp only [List.length_append, List.length_cons]
      omega)]
  simp [List.append_assoc]

/-- Processing a block of well-formed chunks followed by a chunk-size
line whose token does not parse as hexadecimal stops with an error; the
malformed line itself was already copied before the fault. -/
theorem readChunkedBody_invalidAfter (cs : List RawChunk) (bad rest₂ : List Char) (fuel : Nat)
    (hcs : ∀ c ∈ cs, c.valid = true)
    (hbadnl : '\n' ∉ bad)
    (hbadparse : parseInt16 (beforeFirstSemicolon (trimRightCRLF (bad ++ ['\n']))) = none)
    (hf : cs.length < fuel) :
    readChunkedBody fuel (renderChunks cs ++ (bad ++ '\n' :: rest₂))
      = ⟨renderChunks cs ++ (bad ++ ['\n']), rest₂, some .invalidChunk⟩ := by
  have hfe : fuel = cs.length + (fuel - cs.length) := by omega
  rw [hfe, readChunkedBody_chunks cs hcs (fuel - cs.length) _]
  have hf1 : ∃ f, fuel - cs.length = f + 1 := ⟨fuel - cs.length - 1, by omega⟩
  obtain ⟨f, hq⟩ := hf1
  rw [hq]
  simp only [readChunkedBody, readAndCopyLine_append _ _ hbadnl, hbadparse]

/-- Claim C2: for a stream whose head section classifies as chunked (with
any Content-Length value `cl` present or absent — it is ignored, and no
consistency check ties it to the chunk sizes), `ExtractResponse`
reproduces the entire chunk framing verbatim — every chunk-size line,
every payload with its two terminator bytes, the zero-size line and all
trailer lines up to and including the blank line — and then stops,
excluding all further stream bytes. -/
theorem extract_chunked_verbatim (s : List Char) (cl : Option Int) (out rest : List Char)
    (cs : List RawChunk) (z : List Char) (ts : List (List Char)) (b extra : List Char)
    (hhead : readHead s = ⟨cl, true, false, out, rest, none⟩)
    (hrest : rest = renderChunks cs ++ (z ++ '\n' :: (joinTrailers ts ++ (b ++ '\n' :: extra))))
    (hcs : ∀ c ∈ cs, c.valid = true)
    (hz : '\n' ∉ z)
    (hz0 : parseInt16 (beforeFirstSemicolon (trimRightCRLF (z ++ ['\n']))) = some 0)
    (hts : ∀ t ∈ ts, '\n' ∉ t ∧ trimRightCRLF (t ++ ['\n']) ≠ [])
    (hb : '\n' ∉ b) (hbb : trimRightCRLF (b ++ ['\n']) = []) :
    ExtractResponse s false
      = (out ++ (renderChunks cs ++ (z ++ '\n' :: (joinTrailers ts ++ (b ++ ['\n'])))), none) := by
  subst hrest
  simp only [ExtractResponse, hhead]
  rw [readChunkedBody_wellFormed cs z ts b extra _ hcs hz hz0 hts hb hbb
    (by
      have h1 := renderChunks_length_ge cs
      simp only [List.length_append, List.length_cons]
      omega)]
  simp

/-- Claim C2 witness: a chunked response that also carries
`Content-Length: 1` (ignored), one 10-byte chunk, the zero chunk and its
blank line, followed by three extra stream bytes that are excluded. -/
theorem extract_chunked_verbatim_witness :
    ExtractResponse ("HTTP/1.1 200 OK\r\nContent-Length: 1\r\nTransfer-Encoding: chunked\r\n\r\na\r\nAll good.\n\r\n0\r\n\r\n".toList ++ "foo".toList) false
      = ("HTTP/1.1 200 OK\r\nContent-Length: 1\r\nTransfer-Encoding: chunked\r\n\r\na\r\nAll good.\n\r\n0\r\n\r\n".toList, none) := by
  have h := extract_chunked_verbatim
    ("HTTP/1.1 200 OK\r\nContent-Length: 1\r\nTransfer-Encoding: chunked\r\n\r\na\r\nAll good.\n\r\n0\r\n\r\nfoo".toList)
    (some 1)
    ("HTTP/1.1 200 OK\r\nContent-Length: 1\r\nTransfer-Encoding: chunked\r\n\r\n".toList)
    ("a\r\nAll good.\n\r\n0\r\n\r\nfoo".toList)
    [⟨"a\r".toList, "All good.\n\r\n".toList⟩] ("0\r".toList) [] ("\r".toList) ("foo".toList)
    (by rfl) (by rfl) (by decide) (by decide) (by rfl) (by simp) (by decide) (by rfl)
  simpa using h

/-- Claim C7: a chunked stream whose (well-formed) chunks are followed by
a chunk-size line whose token before the optional `;` is rejected by the
hexadecimal integer parse makes `ExtractResponse` return an error, and
the output contains exactly the bytes successfully copied before the
fault (the malformed size line itself was copied by `readAndCopyLine`
before its token was parsed). -/
theorem extract_chunked_invalid_size (s : List Char) (cl : Option Int) (out rest : List Char)
    (cs : List RawChunk) (bad rest₂ : List Char)
    (hhead : readHead s = ⟨cl, true, false, out, rest, none⟩)
    (hrest : rest = renderChunks cs ++ (bad ++ '\n' :: rest₂))
    (hcs : ∀ c ∈ cs, c.valid = true)
    (hbadnl : '\n' ∉ bad)
    (hbadparse : parseInt16 (beforeFirstSemicolon (trimRightCRLF (bad ++ ['\n']))) = none) :
    ExtractResponse s false
      = (out ++ (renderChunks cs ++ (bad ++ ['\n'])), some .invalidChunk) := by
  subst hrest
  simp only [ExtractResponse, hhead]
  rw [readChunkedBody_invalidAfter cs bad rest₂ _ hcs hbadnl hbadparse
    (by
      have h1 := renderChunks_length_ge cs
      simp only [List.length_append, List.length_cons]
      omega)]
  simp

/-- Claim C7 witness: one good chunk, then the size line `zz`, whose
token is not hexadecimal; the output ends right after that line. -/
theorem extract_chunked_invalid_size_witness :
    ExtractResponse "HTTP/1.1 200 OK\r\nTransfer-Encoding: chunked\r\n\r\na\r\nAll good.\n\r\nzz\r\njunk\r\n".toList false
      = ("HTTP/1.1 200 OK\r\nTransfer-Encoding: chunked\r\n\r\na\r\nAll good.\n\r\nzz\r\n".toList,
         some .invalidChunk) := by
  have h := extract_chunked_invalid_size
    ("HTTP/1.1 200 OK\r\nTransfer-Encoding: chunked\r\n\r\na\r\nAll good.\n\r\nzz\r\njunk\r\n".toList)
    none
    ("HTTP/1.1 200 OK\r\nTransfer-Encoding: chunked\r\n\r\n".toList)
    ("a\r\nAll good.\n\r\nzz\r\njunk\r\n".toList)
    [⟨"a\r".toList, "All good.\n\r\n".toList⟩] ("zz\r".toList) ("junk\r\n".toList)
    (by rfl) (by rfl) (by decide) (by decide) (by rfl)
  simpa using h

/-- Claim C4 counterexample: the stream begins with `garbage\r\n` — a
line that is not a well-formed HTTP status line — yet `ExtractResponse`
returns no error at all: it copies the line, treats the following blank
line as the end of the head section, and (with no framing headers) copies
the remainder of the stream, here empty.  A malformed but
newline-terminated status line is therefore not a failure condition. -/
theorem statusLine_malformed_not_error :
    ExtractResponse "garbage\r\n\r\n".toList false = ("garbage\r\n\r\n".toList, none) := by rfl

/-- Claim C4 (amended): the only status-line failure is a read failure —
the stream ends before any newline terminates the status line.  In that
case `ExtractResponse` returns the partial output copied so far (nothing,
since the failed line is never copied) together with the descriptive
status-line error. -/
theorem statusLine_read_failure (s : List Char) (hr : Bool)
    (h : splitLine? s = none) :
    ExtractResponse s hr = ([], some .statusLineRead) := by
  simp [ExtractResponse, readHead, readAndCopyLine, h]

/-- Claim C4 (amended) witness: a stream that ends inside the status
line. -/
theorem statusLine_read_failure_witness :
    ExtractResponse "HTTP/1.1 200".toList false = ([], some .statusLineRead) :=
  statusLine_read_failure "HTTP/1.1 200".toList false (by rfl)

/-! ### Header-line scanning: Content-Length and Transfer-Encoding -/

theorem isPrefixOf_ne_nil (p l : List Char) (hp : p ≠ [])
    (h : p.isPrefixOf l = true) : l ≠ [] := by
  intro he
  subst he
  match p with
  | [] => exact hp rfl
  | a :: as => simp [List.isPrefixOf] at h

theorem cl_not_te (l : List Char)
    (h : "content-length:".toList.isPrefixOf l = true) :
    "transfer-encoding:".toList.isPrefixOf l = false := by
  match l with
  | [] => exact absurd h (by decide)
  | c₀ :: rest =>
    have hc : c₀ = 'c' := by
      rw [show "content-length:".toList = 'c' :: "ontent-length:".toList from rfl] at h
      simp [List.isPrefixOf] at h
      exact h.1.symm
    subst hc
    rw [show "transfer-encoding:".toList = 't' :: "ransfer-encoding:".toList from rfl]
    simp [List.isPrefixOf]

theorem te_not_cl (l : List Char)
    (h : "transfer-encoding:".toList.isPrefixOf l = true) :
    "content-length:".toList.isPrefixOf l = false := by
  match l with
  | [] => exact absurd h (by decide)
  | c₀ :: rest =>
    have hc : c₀ = 't' := by
      rw [show "transfer-encoding:".toList = 't' :: "ransfer-encoding:".toList from rfl] at h
      simp [List.isPrefixOf] at h
      exact h.1.symm
    subst hc
    rw [show "content-length:".toList = 'c' :: "ontent-length:".toList from rfl]
    simp [List.isPrefixOf]

/-- Claim C5 counterexample: the header `Content-Length: -1` carries a
value that does not parse as a non-negative integer, yet header scanning
completes without any error, recording the negative value `-1`:
`strconv.ParseInt` accepts a leading sign, and `readHead` performs no
sign check. -/
theorem contentLength_negative_no_scan_error :
    (readHead "HTTP/1.1 200 OK\r\nContent-Length: -1\r\n\r\n".toList).err = none ∧
    (readHead "HTTP/1.1 200 OK\r\nContent-Length: -1\r\n\r\n".toList).contentLength
      = some (-1) := by
  constructor <;> rfl

/-- Claim C5 (amended): while scanning, a header line whose name matches
`Content-Length:` case-insensitively makes extraction fail with an error
when a Content-Length was already recorded, and fail with an error when
the trimmed value after the colon does not parse as a signed base-10
64-bit integer; otherwise the parsed value — negative values included —
is recorded as the body length and scanning continues. -/
theorem headerLoop_contentLength_step (rawContent rest : List Char) (fuel : Nat)
    (cl₀ : Option Int) (ch : Bool)
    (hnl : '\n' ∉ rawContent)
    (hcl : "content-length:".toList.isPrefixOf
      (toLowerList (trimRightCRLF (rawContent ++ ['\n']))) = true) :
    readHeadLoop (fuel + 1) (rawContent ++ '\n' :: rest) cl₀ ch
      = match cl₀ with
        | some _ => ⟨none, false, rawContent ++ ['\n'], rest, some .multipleContentLength⟩
        | none =>
          match parseInt10 (trimSpace (afterFirstColon (trimRightCRLF (rawContent ++ ['\n'])))) with
          | none => ⟨none, false, rawContent ++ ['\n'], rest, some .invalidContentLength⟩
          | some i => prependLoop (rawContent ++ ['\n']) (readHeadLoop fuel rest (some i) ch) := by
  have hline : trimRightCRLF (rawContent ++ ['\n']) ≠ [] := by
    intro he
    rw [he] at hcl
    simp [toLowerList] at hcl
  have hte := cl_not_te _ hcl
  simp only [readHeadLoop, readAndCopyLine_append _ _ hnl, if_neg hline, hcl, hte,
    if_true, Bool.false_eq_true, if_false]

/-- Claim C5 (amended) witness: the value `-7` is accepted during
scanning and recorded as the Content-Length. -/
theorem headerLoop_contentLength_step_witness :
    readHeadLoop 2 ("Content-Length: -7\r".toList ++ '\n' :: "\r\n".toList) none false
      = ⟨some (-7), false, "Content-Length: -7\r\n\r\n".toList, [], none⟩ := by
  have h := headerLoop_contentLength_step ("Content-Length: -7\r".toList) ("\r\n".toList)
    1 none false (by decide) (by decide)
  exact h.trans (by decide)

/-- Claim C6 counterexample: with the header value written `CHUNKED`,
the response is not classified as chunked — although the claim's
case-insensitive comparison would classify it chunked — while the
lower-case value `chunked` is; the value comparison in `readHead` is
case-sensitive (only the header name is lower-cased). -/
theorem chunked_value_case_sensitive :
    (readHead "HTTP/1.1 200 OK\r\nTransfer-Encoding: CHUNKED\r\n\r\n".toList).chunked = false ∧
    (readHead "HTTP/1.1 200 OK\r\nTransfer-Encoding: chunked\r\n\r\n".toList).chunked = true := by
  constructor <;> rfl

/-- Claim C6 (amended): a header line whose name matches
`Transfer-Encoding:` case-insensitively leaves Content-Length handling
untouched and recomputes the chunked flag — overwriting any earlier
value, so the last Transfer-Encoding header wins — to the result of
comparing the last comma-separated, white-space-trimmed token of the
value with `"chunked"` exactly, i.e. case-sensitively. -/
theorem headerLoop_transferEncoding_step (rawContent rest : List Char) (fuel : Nat)
    (cl₀ : Option Int) (ch : Bool)
    (hnl : '\n' ∉ rawContent)
    (hte : "transfer-encoding:".toList.isPrefixOf
      (toLowerList (trimRightCRLF (rawContent ++ ['\n']))) = true) :
    readHeadLoop (fuel + 1) (rawContent ++ '\n' :: rest) cl₀ ch
      = prependLoop (rawContent ++ ['\n'])
          (readHeadLoop fuel rest cl₀
            (decide (trimSpace ((splitComma (afterFirstColon
              (trimRightCRLF (rawContent ++ ['\n'])))).getLastD []) = "chunked".toList))) := by
  have hline : trimRightCRLF (rawContent ++ ['\n']) ≠ [] := by
    intro he
    rw [he] at hte
    simp [toLowerList] at hte
  have hcl := te_not_cl _ hte
  simp only [readHeadLoop, readAndCopyLine_append _ _ hnl, if_neg hline, hte, hcl,
    if_true, Bool.false_eq_true, if_false]

/-- Claim C6 (amended) witness: the upper-case value `CHUNKED` yields a
chunked flag of `false` after the line is scanned. -/
theorem headerLoop_transferEncoding_step_witness :
    readHeadLoop 2 ("Transfer-Encoding: CHUNKED\r".toList ++ '\n' :: "\r\n".toList) none false
      = ⟨none, false, "Transfer-Encoding: CHUNKED\r\n\r\n".toList, [], none⟩ := by
  have h := headerLoop_transferEncoding_step ("Transfer-Encoding: CHUNKED\r".toList)
    ("\r\n".toList) 1 none false (by decide) (by decide)
  exact h.trans (by decide)

/-! ### The error classifier `toErrno` (main.go)

Go errors are modelled by the discriminations `toErrno` performs: whether
`errors.Is(err, context.DeadlineExceeded)` holds anywhere in the wrapping
chain, and the dynamic shape inspected by the type switches.  The cause
cases of a `*net.OpError` are mutually exclusive by construction, exactly
as Go's first-match type-switch semantics make them (`*net.DNSError`
itself implements `net.Error` but is caught by its earlier case). -/

/-- The cause stored inside a `*net.OpError`, as discriminated by the
inner type switch. -/
inductive NetOpCause
  | dnsError (isNotFound : Bool) (isTimeout : Bool)
  | syscallError (isConnRefused : Bool)
  | netError (timeout : Bool)
  | otherCause
  deriving DecidableEq, Repr

/-- The dynamic shape of the error, as discriminated by the outer type
switch. -/
inductive GoErrShape
  | netOpError (cause : NetOpCause)
  | tlsCertVerificationError
  | other
  deriving DecidableEq, Repr

/-- An error as seen by `toErrno`. -/
structure GoErr where
  wrapsDeadlineExceeded : Bool
  shape : GoErrShape
  deriving DecidableEq, Repr

/-- `toErrno`: deadline-exceeded first, then the structured network
causes, then TLS certificate verification, then the unclassified code
99. -/
def toErrno (e : GoErr) : Int :=
  if e.wrapsDeadlineExceeded then 31
  else
    match e.shape with
    | .netOpError cause =>
      match cause with
      | .dnsError notFound timeout =>
        if notFound then 10 else if timeout then 11 else 99
      | .syscallError refused => if refused then 30 else 99
      | .netError timeout => if timeout then 31 else 99
      | .otherCause => 99
    | .tlsCertVerificationError => 20
    | .other => 99

/-- Claim C8: `toErrno` is a total deterministic function on error
shapes; it resolves deadline-exceeded first (code 31, before every shape
test, TLS included), then DNS not-found (10) before DNS timeout (11),
then connection refused (30), then a generic network timeout (31), then
TLS certificate verification failure (20), and maps every remaining shape
to the unclassified code 99; its range is exactly these codes. -/
theorem toErrno_total_priority (e : GoErr) :
    (e.wrapsDeadlineExceeded = true → toErrno e = 31) ∧
    (e.wrapsDeadlineExceeded = false →
      (∀ nf t, e.shape = .netOpError (.dnsError nf t) →
        toErrno e = if nf then 10 else if t then 11 else 99) ∧
      (∀ r, e.shape = .netOpError (.syscallError r) → toErrno e = if r then 30 else 99) ∧
      (∀ t, e.shape = .netOpError (.netError t) → toErrno e = if t then 31 else 99) ∧
      (e.shape = .netOpError .otherCause → toErrno e = 99) ∧
      (e.shape = .tlsCertVerificationError → toErrno e = 20) ∧
      (e.shape = .other → toErrno e = 99)) ∧
    (toErrno e = 10 ∨ toErrno e = 11 ∨ toErrno e = 20 ∨ toErrno e = 30 ∨
      toErrno e = 31 ∨ toErrno e = 99) ∧
    (∀ e₂ : GoErr, e = e₂ → toErrno e = toErrno e₂) := by
  obtain ⟨dl, shape⟩ := e
  refine ⟨?_, ?_, ?_, ?_⟩
  · intro h
    subst h
    simp [toErrno]
  · intro h
    subst h
    refine ⟨?_, ?_, ?_, ?_, ?_, ?_⟩ <;> first
      | (intro a b hs; subst hs; simp [toErrno])
      | (intro a hs; subst hs; simp [toErrno])
      | (intro hs; subst hs; simp [toErrno])
  · cases dl with
    | true => simp [toErrno]
    | false =>
      cases shape with
      | netOpError cause =>
        cases cause with
        | dnsError nf t => cases nf <;> cases t <;> simp [toErrno]
        | syscallError r => cases r <;> simp [toErrno]
        | netError t => cases t <;> simp [toErrno]
        | otherCause => simp [toErrno]
      | tlsCertVerificationError => simp [toErrno]
      | other => simp [toErrno]
  · intro e₂ h
    rw [h]

/-- Claim C8 witness: a deadline-exceeded error is classified 31 even
when its shape is a TLS certificate verification failure. -/
theorem toErrno_total_priority_witness :
    toErrno ⟨true, .tlsCertVerificationError⟩ = 31 :=
  (toErrno_total_priority ⟨true, .tlsCertVerificationError⟩).1 rfl

/-! ### The instrumented reader `timedReader` (timed_reader.go)

One `Read` call of the wrapped reader is modelled by the bytes it
returns together with its error flag and the wall-clock instant at which
it completes (an abstract `Nat`; `time.Now()` at that instant).  The
recorded `readAt` time is `none` while still the zero `time.Time`. -/

/-- One result of the wrapped reader, with the clock value at that
moment. -/
structure ReadStep where
  data : List Char
  err : Bool
  now : Nat
  deriving DecidableEq, Repr

/-- `timedReader.Read`: forward the wrapped result unchanged; record the
time exactly when nothing is recorded yet and at least one byte was
returned. -/
def timedRead (readAt : Option Nat) (st : ReadStep) : (List Char × Bool) × Option Nat :=
  ((st.data, st.err),
   if readAt = none ∧ 0 < st.data.length then some st.now else readAt)

/-- Run a sequence of reads through `timedReader`, collecting every
returned result and the final recorded time. -/
def runTimedReader : Option Nat → List ReadStep → List (List Char × Bool) × Option Nat
  | readAt, [] => ([], readAt)
  | readAt, st :: rest =>
    let o := timedRead readAt st
    let r := runTimedReader o.2 rest
    (o.1 :: r.1, r.2)

theorem runTimedReader_some (t : Nat) : ∀ (steps : List ReadStep),
    runTimedReader (some t) steps = (steps.map (fun st => (st.data, st.err)), some t) := by
  intro steps
  induction steps with
  | nil => simp [runTimedReader]
  | cons st rest ih => simp [runTimedReader, timedRead, ih]

/-- Claim C9: over any sequence of reads, `timedReader` returns exactly
the wrapped reader's byte contents and error results, unchanged and in
order; and the recorded timestamp is set exactly once — to the clock
value of the first read that yields at least one byte (absent when no
read does) — and is never updated by any later read. -/
theorem timedReader_transparent (steps : List ReadStep) :
    (runTimedReader none steps).1 = steps.map (fun st => (st.data, st.err)) ∧
    (runTimedReader none steps).2
      = (steps.find? (fun st => decide (0 < st.data.length))).map ReadStep.now := by
  induction steps with
  | nil => simp [runTimedReader]
  | cons st rest ih =>
    by_cases hd : 0 < st.data.length
    · have hrun := runTimedReader_some st.now rest
      constructor
      · simp [runTimedReader, timedRead, hd, hrun]
      · simp [runTimedReader, timedRead, hd, hrun, List.find?_cons_of_pos]
    · constructor
      · simp [runTimedReader, timedRead, hd, ih.1]
      · have hfind : List.find? (fun st => decide (0 < st.data.length)) (st :: rest)
            = List.find? (fun st => decide (0 < st.data.length)) rest := by
          rw [List.find?_cons_of_neg]
          simpa using hd
        simp [runTimedReader, timedRead, hd, hfind, ih.2]

/-! ### `isHEAD` (main.go) -/

/-- `isHEAD`: the raw request is at least four bytes long and its first
four bytes, lower-cased, read `head`. -/
def isHEAD (req : List Char) : Bool :=
  decide (4 ≤ req.length) && (toLowerList (req.take 4) == "head".toList)

/-- Claim C10: a request is framed as HEAD iff it is at least four bytes
long and its first four bytes case-insensitively spell `head`; the rest
of the request line is never examined — any two requests agreeing on
their first four bytes are classified identically — so a request whose
method merely begins with those letters (such as a hypothetical `HEADER`
method) is also framed as HEAD. -/
theorem isHEAD_spec (req : List Char) :
    (isHEAD req = true ↔ 4 ≤ req.length ∧ toLowerList (req.take 4) = "head".toList) ∧
    (∀ req₂ : List Char, req.take 4 = req₂.take 4 → isHEAD req = isHEAD req₂) := by
  constructor
  · simp [isHEAD]
  · intro req₂ htake
    have hlen : min 4 req.length = min 4 req₂.length := by
      have h1 := congrArg List.length htake
      simpa [List.length_take] using h1
    have hiff : (4 ≤ req.length) ↔ (4 ≤ req₂.length) := by omega
    simp only [isHEAD, htake]
    congr 1
    exact decide_eq_decide.mpr hiff

/-- Claim C10 witness: the request line `HEADER / HTTP/1.1` — whose
method token is not `HEAD` but begins with those four letters — is framed
as HEAD. -/
theorem isHEAD_spec_witness :
    isHEAD "HEADER / HTTP/1.1\r\n\r\n".toList = true :=
  (isHEAD_spec "HEADER / HTTP/1.1\r\n\r\n".toList).1.mpr ⟨by decide, by decide⟩

end Preq
